import Mathlib

/-!
Verification of the asynchronous structured-logging engine of `jobocron`
(`src/log/log.go`) against its natural-language specification.

Embedding conventions:
* Byte strings are modelled as `List Char` (all inputs of interest are ASCII,
  so char count and byte count agree).
* `bufio.Writer` is modelled by `BufWriter`: `buf` is the in-memory buffer,
  `out` is everything already written to the underlying sink, `cap` the buffer
  capacity.  The sink is modelled by a flag `sinkOK`: when `false` every write
  to the sink errors; `err` is the writer's sticky error, as in `bufio`.
  Sink writes are assumed all-or-nothing (no partial writes).
* `map[string]interface{}` is modelled as an association list with
  Go-map insert semantics (`mapInsert` overwrites an existing key).
  `interface{}` values are modelled by `GoVal`; the constructor `GoVal.chanv`
  stands for a value (such as a Go channel) that `json.Marshal` cannot encode.
* `json.Marshal` of an `Entry` is modelled by `marshalEntry`, following
  encoding/json: struct fields in declaration order, map keys sorted,
  strings escaped (including the HTML escapes encoding/json applies).
  `time.Time` formatting is abstracted to the decimal rendering of the
  model timestamp inside a quoted JSON string.
* The logger (`Logger` in the source) is `LoggerState`: `closed` is the atomic
  flag, `queue` the FIFO, `pending` the `sync.WaitGroup` counter, `pool` the
  `sync.Pool` of entries (modelled as a stack; `Get` on an empty pool
  allocates a fresh zero entry, as the pool's `New` does), and `diag` counts
  messages written to the diagnostic side channel (`os.Stderr`).
* Goroutine scheduling is modelled by quantifying over every way the accepted
  entries can be split into batches (`writeBatch` calls): the claims are proved
  for all interleavings the worker loop can produce.
-/

namespace Jobocron

/-- `maxEntrySize` from `src/log/log.go` (1 MB). -/
def maxEntrySize : Nat := 1024 * 1024

/-- `defaultBufferSize` from `src/log/log.go` (256 KB). -/
def defaultBufferSize : Nat := 256 * 1024

/-- Model of a Go `interface{}` value as stored in key/value arguments and in
`Entry.Data`.  `chanv` stands for a value `json.Marshal` rejects (e.g. a
channel). -/
inductive GoVal where
  | str (s : List Char) : GoVal
  | int (n : Int) : GoVal
  | null : GoVal
  | chanv : GoVal
deriving DecidableEq, Repr

/-- The `Entry` struct of `src/log/log.go`: time, level, message and the
`Data` map. -/
structure Entry where
  time : Nat
  level : List Char
  message : List Char
  data : List (List Char × GoVal)
deriving DecidableEq, Repr

/-- The zero entry, as allocated by the pool's `New` function
(`&Entry{Data: make(map[string]interface{})}`). -/
def newEntry : Entry := { time := 0, level := [], message := [], data := [] }

/-- Go map assignment `m[k] = v`: overwrite an existing key, otherwise add. -/
def mapInsert (m : List (List Char × GoVal)) (k : List Char) (v : GoVal) :
    List (List Char × GoVal) :=
  if m.any (fun p => p.1 == k) then
    m.map (fun p => if p.1 == k then (k, v) else p)
  else
    m ++ [(k, v)]

/-- Go map deletion `delete(m, k)`. -/
def mapDelete (m : List (List Char × GoVal)) (k : List Char) :
    List (List Char × GoVal) :=
  m.filter (fun p => p.1 != k)

/-- The map-clearing loop of `resetEntry`:
`for k := range e.Data { delete(e.Data, k) }`. -/
def clearData (m : List (List Char × GoVal)) : List (List Char × GoVal) :=
  m.foldl (fun acc p => mapDelete acc p.1) m

/-- `resetEntry` from `src/log/log.go`: zero time, empty level and message,
and delete every key of the map. -/
def resetEntry (e : Entry) : Entry :=
  { time := 0, level := [], message := [], data := clearData e.data }

/-- The key/value walk of `Logger.log`: step through `kvs` two at a time;
a pair is only considered when both positions exist (`i+1 < len(kvs)`), and
recorded only when the type assertion `kvs[i].(string)` succeeds. -/
def collectKVs (kvs : List GoVal) (m : List (List Char × GoVal)) :
    List (List Char × GoVal) :=
  match kvs with
  | k :: v :: rest =>
    match k with
    | GoVal.str s => collectKVs rest (mapInsert m s v)
    | _ => collectKVs rest m
  | _ => m

/-! ### JSON serialization (model of `encoding/json` on the shapes used) -/

/-- Decimal digit character. -/
def digitChar (n : Nat) : Char :=
  if n = 0 then '0' else if n = 1 then '1' else if n = 2 then '2'
  else if n = 3 then '3' else if n = 4 then '4' else if n = 5 then '5'
  else if n = 6 then '6' else if n = 7 then '7' else if n = 8 then '8'
  else '9'

/-- Lower-case hexadecimal digit character. -/
def hexDigit (n : Nat) : Char :=
  if n < 10 then digitChar n
  else if n = 10 then 'a' else if n = 11 then 'b' else if n = 12 then 'c'
  else if n = 13 then 'd' else if n = 14 then 'e' else 'f'

/-- Decimal rendering of a natural number (fuel-indexed helper). -/
def natCharsAux : Nat → Nat → List Char
  | 0, _ => []
  | fuel + 1, n =>
    if n < 10 then [digitChar n]
    else natCharsAux fuel (n / 10) ++ [digitChar (n % 10)]

/-- Decimal rendering of a natural number. -/
def natChars (n : Nat) : List Char := natCharsAux (n + 1) n

/-- Decimal rendering of an integer. -/
def intChars (n : Int) : List Char :=
  if n < 0 then '-' :: natChars n.natAbs else natChars n.natAbs

/-- encoding/json escaping of one character inside a JSON string: quote,
backslash, the named control escapes, the HTML escapes `<`, `>`, `&`, other
control characters as `\u00XX`, everything else verbatim. -/
def escChar (c : Char) : List Char :=
  if c = '"' then ['\\', '"']
  else if c = '\\' then ['\\', '\\']
  else if c = '\n' then ['\\', 'n']
  else if c = '\r' then ['\\', 'r']
  else if c = '\t' then ['\\', 't']
  else if c = '<' then ("\\u003c").toList
  else if c = '>' then ("\\u003e").toList
  else if c = '&' then ("\\u0026").toList
  else if c.toNat < 32 then
    ("\\u00").toList ++ [hexDigit (c.toNat / 16), hexDigit (c.toNat % 16)]
  else [c]

/-- A JSON string literal: quoted, characters escaped. -/
def jsonString (s : List Char) : List Char :=
  '"' :: (s.flatMap escChar ++ ['"'])

/-- `json.Marshal` of one `interface{}` value; `none` is a serialization
error (unsupported type). -/
def marshalVal : GoVal → Option (List Char)
  | GoVal.str s => some (jsonString s)
  | GoVal.int n => some (intChars n)
  | GoVal.null => some (("null").toList)
  | GoVal.chanv => none

/-- Byte-wise (here: code-point-wise) ordering on keys, as used by
encoding/json when sorting map keys. -/
def ltKey : List Char → List Char → Bool
  | [], [] => false
  | [], _ :: _ => true
  | _ :: _, [] => false
  | a :: as, b :: bs =>
    if a.toNat < b.toNat then true
    else if b.toNat < a.toNat then false
    else ltKey as bs

/-- Insertion into a key-sorted association list. -/
def insertSorted (p : List Char × GoVal) :
    List (List Char × GoVal) → List (List Char × GoVal)
  | [] => [p]
  | q :: rest => if ltKey q.1 p.1 then q :: insertSorted p rest else p :: q :: rest

/-- Sort map entries by key (encoding/json marshals map keys in sorted
order). -/
def sortByKey (m : List (List Char × GoVal)) : List (List Char × GoVal) :=
  m.foldr insertSorted []

/-- Marshal each `"key":value` field of a map; fails if any value fails. -/
def marshalFields : List (List Char × GoVal) → Option (List (List Char))
  | [] => some []
  | (k, v) :: rest =>
    match marshalVal v, marshalFields rest with
    | some vs, some fs => some ((jsonString k ++ [':'] ++ vs) :: fs)
    | _, _ => none

/-- Comma-join a list of field renderings. -/
def joinComma : List (List Char) → List Char
  | [] => []
  | [f] => f
  | f :: rest => f ++ [','] ++ joinComma rest

/-- `json.Marshal` of the `Data` map. -/
def marshalData (m : List (List Char × GoVal)) : Option (List Char) :=
  match marshalFields (sortByKey m) with
  | some fs => some ('\x7b' :: (joinComma fs ++ ['\x7d']))
  | none => none

/-- `json.Marshal(entry)`: the struct fields in declaration order
(`time`, `level`, `message`, `data`).  The `time.Time` rendering is
abstracted to the decimal model timestamp inside a JSON string. -/
def marshalEntry (e : Entry) : Option (List Char) :=
  match marshalData e.data with
  | none => none
  | some ds =>
    some (("\x7b\"time\":").toList ++ jsonString (natChars e.time)
      ++ (",\"level\":").toList ++ jsonString e.level
      ++ (",\"message\":").toList ++ jsonString e.message
      ++ (",\"data\":").toList ++ ds ++ ['\x7d'])

/-- An entry serializes successfully and within the 1 MB limit: such entries
are written and pooled by `writeBatch`, the others are skipped. -/
def entryOK (e : Entry) : Bool :=
  match marshalEntry e with
  | none => false
  | some d => decide (d.length ≤ maxEntrySize)

/-! ### The buffered writer (`bufio.Writer`) -/

/-- Model of `bufio.Writer` plus its underlying sink.  `out` is the sink's
accumulated content, `buf` the buffered bytes, `sinkOK` whether sink writes
succeed, `err` the writer's sticky error flag. -/
structure BufWriter where
  cap : Nat
  buf : List Char
  out : List Char
  sinkOK : Bool
  err : Bool
deriving DecidableEq, Repr

/-- `Available()` of `bufio.Writer`. -/
def bufAvailable (w : BufWriter) : Nat := w.cap - w.buf.length

/-- Everything the buffered writer has accepted, in order: sink content
followed by buffered content. -/
def bufContents (w : BufWriter) : List Char := w.out ++ w.buf

/-- `Flush()`: sticky error first; empty buffer is a no-op; otherwise write
the buffer to the sink (recording a sticky error on failure).  The returned
`Bool` is `true` when an error is reported. -/
def bufFlush (w : BufWriter) : BufWriter × Bool :=
  if w.err then (w, true)
  else if w.buf.isEmpty then (w, false)
  else if w.sinkOK then ({ w with out := w.out ++ w.buf, buf := [] }, false)
  else ({ w with err := true }, true)

/-- `Write(p)`: no-op under a sticky error; append when `p` fits in the
available space; a large write with an empty buffer goes directly to the
sink; otherwise fill the buffer to capacity, flush, and place or write the
remainder. -/
def bufWrite (w : BufWriter) (s : List Char) : BufWriter × Bool :=
  if w.err then (w, true)
  else if s.length ≤ bufAvailable w then ({ w with buf := w.buf ++ s }, false)
  else if w.buf.isEmpty then
    if w.sinkOK then ({ w with out := w.out ++ s }, false)
    else ({ w with err := true }, true)
  else
    let k := bufAvailable w
    let s1 := s.drop k
    if w.sinkOK then
      let w1 := { w with out := w.out ++ w.buf ++ s.take k, buf := ([] : List Char) }
      if s1.length ≤ w1.cap then ({ w1 with buf := s1 }, false)
      else ({ w1 with out := w1.out ++ s1 }, false)
    else ({ w with buf := w.buf ++ s.take k, err := true }, true)

/-- `WriteByte(c)`: no-op under a sticky error; flush first when no space is
available; then append the byte to the buffer. -/
def bufWriteByte (w : BufWriter) (c : Char) : BufWriter × Bool :=
  if w.err then (w, true)
  else if bufAvailable w = 0 then
    if w.sinkOK then ({ w with out := w.out ++ w.buf, buf := [c] }, false)
    else ({ w with err := true }, true)
  else ({ w with buf := w.buf ++ [c] }, false)

/-! ### The logger -/

/-- The `Logger` of `src/log/log.go` together with the package-global entry
pool and the diagnostic side channel (modelled as a message count). -/
structure LoggerState where
  closed : Bool
  queue : List Entry
  pending : Int
  writer : BufWriter
  pool : List Entry
  diag : Nat
deriving DecidableEq, Repr

/-- `NewLogger`: open logger, empty queue, zero pending counter, fresh
256 KB buffer over the given sink. -/
def newLogger (sinkOK : Bool) : LoggerState :=
  { closed := false, queue := [], pending := 0,
    writer := { cap := defaultBufferSize, buf := [], out := [],
                sinkOK := sinkOK, err := false },
    pool := [], diag := 0 }

/-- `entryPool.Get()`: pop the pool, or allocate a fresh zero entry via the
pool's `New` when empty. -/
def poolGet : List Entry → Entry × List Entry
  | [] => (newEntry, [])
  | e :: rest => (e, rest)

/-- The population phase of `Logger.log`: reset the acquired entry, stamp
time, level and message, then run the key/value walk. -/
def populateEntry (now : Nat) (lvl msg : List Char) (kvs : List GoVal)
    (e : Entry) : Entry :=
  let r := resetEntry e
  { r with time := now, level := lvl, message := msg,
           data := collectKVs kvs r.data }

/-- `Logger.log`: acquire and populate an entry; when open, enqueue it and
increment the pending counter; when closed, put it back into the pool
(without resetting it) and drop it. -/
def loggerLog (st : LoggerState) (now : Nat) (lvl msg : List Char)
    (kvs : List GoVal) : LoggerState :=
  let p := poolGet st.pool
  let e := populateEntry now lvl msg kvs p.1
  if st.closed = false then
    { st with pool := p.2, queue := st.queue ++ [e], pending := st.pending + 1 }
  else
    { st with pool := e :: p.2 }

/-- One iteration of the `writeBatch` loop body for a single entry:
marshal (skip and report on failure), size check (skip and report when over
1 MB), pre-flush when the buffer lacks room for the record plus the newline,
write the record, write the newline, then reset and pool the entry. -/
def processEntry (st : LoggerState) (e : Entry) : LoggerState :=
  match marshalEntry e with
  | none => { st with diag := st.diag + 1 }
  | some d =>
    if maxEntrySize < d.length then { st with diag := st.diag + 1 }
    else
      let st1 :=
        if bufAvailable st.writer < d.length + 1 then
          let f := bufFlush st.writer
          { st with writer := f.1, diag := st.diag + (if f.2 then 1 else 0) }
        else st
      let r1 := bufWrite st1.writer d
      let st2 := { st1 with writer := r1.1,
                            diag := st1.diag + (if r1.2 then 1 else 0) }
      let r2 := bufWriteByte st2.writer '\n'
      let st3 := { st2 with writer := r2.1,
                            diag := st2.diag + (if r2.2 then 1 else 0) }
      { st3 with pool := resetEntry e :: st3.pool }

/-- `Logger.writeBatch`: empty batches return immediately; otherwise each
entry is processed in accumulation order, the buffer is flushed once, and the
pending counter is decremented by the batch length. -/
def writeBatchStep (st : LoggerState) (batch : List Entry) : LoggerState :=
  if batch.isEmpty then st
  else
    let st1 := batch.foldl processEntry st
    let f := bufFlush st1.writer
    { st1 with writer := f.1,
               diag := st1.diag + (if f.2 then 1 else 0),
               pending := st1.pending - (batch.length : Int) }

/-- `Logger.Close`: the compare-and-swap succeeds only on the first call;
that call sets the closed flag, waits for the pending counter to reach zero
(`wg.Wait()`; the sequential embedding is evaluated at the drained state),
flushes, and returns the flush's error.  Later calls return `false` (nil)
immediately. -/
def loggerClose (st : LoggerState) : LoggerState × Bool :=
  if st.closed then (st, false)
  else
    let st1 := { st with closed := true }
    let f := bufFlush st1.writer
    ({ st1 with writer := f.1 }, f.2)

/-- Arguments of one `log` call. -/
structure CallArgs where
  now : Nat
  level : List Char
  message : List Char
  kvs : List GoVal
deriving DecidableEq, Repr

/-- The entry a `log` call produces (independent of pool residue). -/
def entryOfCall (c : CallArgs) : Entry :=
  { time := c.now, level := c.level, message := c.message,
    data := collectKVs c.kvs [] }

/-- Perform one `log` call. -/
def doLog (st : LoggerState) (c : CallArgs) : LoggerState :=
  loggerLog st c.now c.level c.message c.kvs

/-- Run a sequence of `log` calls against a fresh logger over a working
sink. -/
def runLogs (calls : List CallArgs) : LoggerState :=
  calls.foldl doLog (newLogger true)

/-! ### A JSON reader (the external consumer of the output stream)

Used to state the round-trip property: an output line, parsed back, yields
the logged data mapping.  This is a plain recursive-descent JSON parser over
the JSON subset the logger emits. -/

/-- Parsed JSON values. -/
inductive JVal where
  | jnull : JVal
  | jnum (n : Int) : JVal
  | jstr (s : List Char) : JVal
  | jobj (fields : List (List Char × JVal)) : JVal
deriving Repr

/-- Numeric value of one hexadecimal digit character. -/
def hexVal (c : Char) : Option Nat :=
  if 48 ≤ c.toNat ∧ c.toNat ≤ 57 then some (c.toNat - 48)
  else if 97 ≤ c.toNat ∧ c.toNat ≤ 102 then some (c.toNat - 87)
  else if 65 ≤ c.toNat ∧ c.toNat ≤ 70 then some (c.toNat - 55)
  else none

/-- Parse the body of a JSON string (after the opening quote), undoing the
escapes; returns the decoded characters and the rest of the input. -/
def parseStringBody : Nat → List Char → Option (List Char × List Char)
  | 0, _ => none
  | fuel + 1, cs =>
    match cs with
    | [] => none
    | c :: rest =>
      if c = '"' then some ([], rest)
      else if c = '\\' then
        match rest with
        | [] => none
        | e :: rest2 =>
          if e = '"' ∨ e = '\\' ∨ e = '/' then
            (parseStringBody fuel rest2).map (fun p => (e :: p.1, p.2))
          else if e = 'n' then
            (parseStringBody fuel rest2).map (fun p => ('\n' :: p.1, p.2))
          else if e = 't' then
            (parseStringBody fuel rest2).map (fun p => ('\t' :: p.1, p.2))
          else if e = 'r' then
            (parseStringBody fuel rest2).map (fun p => ('\r' :: p.1, p.2))
          else if e = 'u' then
            match rest2 with
            | h1 :: h2 :: h3 :: h4 :: rest3 =>
              match hexVal h1, hexVal h2, hexVal h3, hexVal h4 with
              | some a, some b, some c2, some d2 =>
                (parseStringBody fuel rest3).map
                  (fun p => (Char.ofNat (((a * 16 + b) * 16 + c2) * 16 + d2) :: p.1, p.2))
              | _, _, _, _ => none
            | _ => none
          else none
      else (parseStringBody fuel rest).map (fun p => (c :: p.1, p.2))

/-- Parse a run of decimal digits. -/
def parseNat (cs : List Char) : Option (Nat × List Char) :=
  let digits := cs.takeWhile (fun c => decide (48 ≤ c.toNat ∧ c.toNat ≤ 57))
  if digits.isEmpty then none
  else some (digits.foldl (fun acc c => acc * 10 + (c.toNat - 48)) 0,
             cs.drop digits.length)

mutual

/-- Parse one JSON value. -/
def parseVal : Nat → List Char → Option (JVal × List Char)
  | 0, _ => none
  | fuel + 1, cs =>
    match cs with
    | [] => none
    | c :: rest =>
      if c = '"' then
        (parseStringBody (fuel + 1) rest).map (fun p => (JVal.jstr p.1, p.2))
      else if c = '\x7b' then
        match rest with
        | '\x7d' :: rest2 => some (JVal.jobj [], rest2)
        | _ => (parseFields fuel rest).map (fun p => (JVal.jobj p.1, p.2))
      else if c = 'n' then
        match rest with
        | 'u' :: 'l' :: 'l' :: rest2 => some (JVal.jnull, rest2)
        | _ => none
      else if c = '-' then
        match parseNat rest with
        | some (n, rest2) => some (JVal.jnum (-(n : Int)), rest2)
        | none => none
      else
        match parseNat cs with
        | some (n, rest2) => some (JVal.jnum (n : Int), rest2)
        | none => none

/-- Parse the fields of a JSON object (after the opening brace, at least one
field). -/
def parseFields : Nat → List Char → Option (List (List Char × JVal) × List Char)
  | 0, _ => none
  | fuel + 1, cs =>
    match cs with
    | '"' :: rest =>
      match parseStringBody (fuel + 1) rest with
      | some (k, rest2) =>
        match rest2 with
        | ':' :: rest3 =>
          match parseVal fuel rest3 with
          | some (v, rest4) =>
            match rest4 with
            | ',' :: rest5 =>
              (parseFields fuel rest5).map (fun p => ((k, v) :: p.1, p.2))
            | '\x7d' :: rest5 => some ([(k, v)], rest5)
            | _ => none
          | none => none
        | _ => none
      | none => none
    | _ => none

end

/-- Look up a field of a parsed JSON object. -/
def lookupField (fs : List (List Char × JVal)) (k : List Char) : Option JVal :=
  match fs with
  | [] => none
  | (k2, v) :: rest => if k2 = k then some v else lookupField rest k

/-- Parse a whole output line as a JSON object and extract its `data`
field. -/
def parsedData (line : List Char) : Option JVal :=
  match parseVal 1000 line with
  | some (JVal.jobj fs, []) => lookupField fs (("data").toList)
  | _ => none

/-- A writer with a working sink and no sticky error. -/
def writerOK (w : BufWriter) : Prop := w.err = false ∧ w.sinkOK = true

/-- Number of newline-terminated records accepted by the writer. -/
def nlc (st : LoggerState) : Nat := (bufContents st.writer).count '\n'

/-! ### Spec-side definitions and concrete states used by the claims -/

/-- The pairs the specification says `log` records: walk the argument list
two at a time; a pair contributes exactly when it is complete (both
positions exist) and its first element is a string.  An incomplete trailing
element and pairs with non-string keys contribute nothing and do not stop
the walk. -/
def specPairs : List GoVal → List (List Char × GoVal)
  | k :: v :: rest =>
    (match k with
     | GoVal.str s => [(s, v)]
     | _ => []) ++ specPairs rest
  | _ => []

/-- A fresh logger whose closed flag is already set. -/
def closedLogger : LoggerState := { newLogger true with closed := true }

/-- A closed logger whose final flush failed (sticky error) and whose buffer
has since changed. -/
def dirtyClosedLogger : LoggerState :=
  { closed := true, queue := [], pending := 0,
    writer := { cap := defaultBufferSize, buf := ("x").toList, out := [],
                sinkOK := false, err := true },
    pool := [], diag := 0 }

/-- An open, drained logger with buffered data over a failing sink: its
close must surface the flush error. -/
def stalledLogger : LoggerState :=
  { closed := false, queue := [], pending := 0,
    writer := { cap := defaultBufferSize, buf := ("x").toList, out := [],
                sinkOK := false, err := false },
    pool := [], diag := 0 }

/-- An entry whose `Data` map holds a value `json.Marshal` rejects: its
serialization fails. -/
def badEntry : Entry :=
  { time := 0, level := [], message := [],
    data := [(("k").toList, GoVal.chanv)] }

/-- The entry logged for the round-trip property: mapping `{"key":"value"}`. -/
def c8Entry : Entry :=
  { time := 0, level := ("info").toList, message := ("hello").toList,
    data := [(("key").toList, GoVal.str (("value").toList))] }

/-- The output line `c8Entry` produces: the sink content up to the first
newline after the batch is written. -/
def c8Line : List Char :=
  (writeBatchStep (newLogger true) [c8Entry]).writer.out.takeWhile
    (fun c => c != '\n')

/-- An entry whose serialized record is far larger than the 256 KB buffer
yet well under the 1 MB maximum. -/
def bigEntry : Entry :=
  { time := 0, level := [], message := List.replicate 300000 'a', data := [] }

/-- The serialized record of `bigEntry` (the shape `marshalEntry`
produces). -/
def bigRecord : List Char :=
  ("\x7b\"time\":").toList ++ jsonString (natChars 0)
    ++ (",\"level\":").toList ++ jsonString []
    ++ (",\"message\":").toList ++ jsonString (List.replicate 300000 'a')
    ++ (",\"data\":").toList ++ ("\x7b\x7d").toList ++ ['\x7d']

/-- Arguments for the single call of the C1 witness scenario. -/
def c1Call : CallArgs :=
  { now := 0, level := ("info").toList, message := ("hi").toList, kvs := [] }

/-! ### Reset and populate -/

theorem foldl_mapDelete_eq_nil :
    ∀ (l acc : List (List Char × GoVal)),
      (∀ q ∈ acc, q.1 ∈ l.map Prod.fst) →
      l.foldl (fun a p => mapDelete a p.1) acc = [] := by
  intro l
  induction l with
  | nil =>
    intro acc h
    cases acc with
    | nil => rfl
    | cons q rest => simpa using h q (by simp)
  | cons p rest ih =>
    intro acc h
    simp only [List.foldl_cons]
    apply ih
    intro q hq
    simp only [mapDelete, List.mem_filter] at hq
    have h1 := h q hq.1
    simp only [List.map_cons, List.mem_cons] at h1
    rcases h1 with h1 | h1
    · exact absurd h1 (by simpa using hq.2)
    · exact h1

theorem clearData_eq_nil (m : List (List Char × GoVal)) : clearData m = [] := by
  apply foldl_mapDelete_eq_nil
  intro q hq
  exact List.mem_map_of_mem Prod.fst hq

/-- `resetEntry` always yields the zero entry. -/
theorem resetEntry_eq (e : Entry) : resetEntry e = newEntry := by
  simp [resetEntry, newEntry, clearData_eq_nil]

/-- Populating is insensitive to the acquired entry. -/
theorem populateEntry_eq (now : Nat) (lvl msg : List Char) (kvs : List GoVal)
    (e : Entry) :
    populateEntry now lvl msg kvs e =
      { time := now, level := lvl, message := msg, data := collectKVs kvs [] } := by
  simp [populateEntry, resetEntry_eq, newEntry]

/-! ### Serialized records contain no raw newline -/

theorem digitChar_ne_nl (n : Nat) : digitChar n ≠ '\n' := by
  unfold digitChar
  split_ifs <;> decide

theorem hexDigit_ne_nl (n : Nat) : hexDigit n ≠ '\n' := by
  unfold hexDigit
  split_ifs with h
  · exact digitChar_ne_nl n
  all_goals decide

theorem nl_not_mem_natCharsAux : ∀ fuel n, '\n' ∉ natCharsAux fuel n := by
  intro fuel
  induction fuel with
  | zero => intro n; simp [natCharsAux]
  | succ f ih =>
    intro n
    unfold natCharsAux
    split_ifs
    · simp only [List.mem_singleton]
      exact fun h => (digitChar_ne_nl n) h.symm
    · intro h
      rcases List.mem_append.mp h with h | h
      · exact ih _ h
      · simp only [List.mem_singleton] at h
        exact (digitChar_ne_nl _) h.symm

theorem nl_not_mem_natChars (n : Nat) : '\n' ∉ natChars n :=
  nl_not_mem_natCharsAux _ _

theorem nl_not_mem_intChars (n : Int) : '\n' ∉ intChars n := by
  unfold intChars
  split_ifs
  · intro h
    rcases List.mem_cons.mp h with h | h
    · exact absurd h (by decide)
    · exact nl_not_mem_natChars _ h
  · exact nl_not_mem_natChars _

theorem nl_not_mem_escChar (c : Char) : '\n' ∉ escChar c := by
  unfold escChar
  split_ifs with h1 h2 h3 h4 h5 h6 h7 h8 h9
  · decide
  · decide
  · decide
  · decide
  · decide
  · decide
  · decide
  · decide
  · intro h
    rcases List.mem_append.mp h with h | h
    · exact absurd h (by decide)
    · rcases List.mem_cons.mp h with h | h
      · exact (hexDigit_ne_nl _) h.symm
      · simp only [List.mem_singleton] at h
        exact (hexDigit_ne_nl _) h.symm
  · simp only [List.mem_singleton]
    exact fun h => h3 h.symm

theorem nl_not_mem_jsonString (s : List Char) : '\n' ∉ jsonString s := by
  unfold jsonString
  intro h
  rcases List.mem_cons.mp h with h | h
  · exact absurd h (by decide)
  · rcases List.mem_append.mp h with h | h
    · rcases List.mem_flatMap.mp h with ⟨c, _, hc⟩
      exact nl_not_mem_escChar c hc
    · exact absurd h (by decide)

theorem nl_not_mem_marshalVal (v : GoVal) (d : List Char)
    (h : marshalVal v = some d) : '\n' ∉ d := by
  cases v with
  | str s =>
    simp only [marshalVal, Option.some.injEq] at h
    exact h ▸ nl_not_mem_jsonString s
  | int n =>
    simp only [marshalVal, Option.some.injEq] at h
    exact h ▸ nl_not_mem_intChars n
  | null =>
    simp only [marshalVal, Option.some.injEq] at h
    subst h; decide
  | chanv => simp [marshalVal] at h

theorem nl_not_mem_marshalFields :
    ∀ (m : List (List Char × GoVal)) (fs : List (List Char)),
      marshalFields m = some fs → ∀ f ∈ fs, '\n' ∉ f := by
  intro m
  induction m with
  | nil =>
    intro fs h
    simp only [marshalFields, Option.some.injEq] at h
    subst h; simp
  | cons p rest ih =>
    intro fs h
    obtain ⟨k, v⟩ := p
    simp only [marshalFields] at h
    cases hv : marshalVal v with
    | none => rw [hv] at h; simp at h
    | some vs =>
      cases hr : marshalFields rest with
      | none => rw [hv, hr] at h; simp at h
      | some fs2 =>
        rw [hv, hr] at h
        simp only [Option.some.injEq] at h
        subst h
        intro f hf
        rcases List.mem_cons.mp hf with hf | hf
        · subst hf
          intro hn
          rcases List.mem_append.mp hn with hn | hn
          · rcases List.mem_append.mp hn with hn | hn
            · exact nl_not_mem_jsonString k hn
            · exact absurd hn (by decide)
          · exact nl_not_mem_marshalVal v vs hv hn
        · exact ih fs2 hr f hf

theorem nl_not_mem_joinComma :
    ∀ (fs : List (List Char)), (∀ f ∈ fs, '\n' ∉ f) → '\n' ∉ joinComma fs := by
  intro fs
  induction fs with
  | nil => intro _; simp [joinComma]
  | cons f rest ih =>
    intro h
    cases rest with
    | nil => exact h f (by simp)
    | cons g rest2 =>
      unfold joinComma
      intro hn
      rcases List.mem_append.mp hn with hn | hn
      · rcases List.mem_append.mp hn with hn | hn
        · exact h f (by simp) hn
        · exact absurd hn (by decide)
      · exact ih (fun x hx => h x (List.mem_cons_of_mem f hx)) hn

theorem nl_not_mem_marshalData (m : List (List Char × GoVal)) (ds : List Char)
    (h : marshalData m = some ds) : '\n' ∉ ds := by
  unfold marshalData at h
  cases hf : marshalFields (sortByKey m) with
  | none => rw [hf] at h; simp at h
  | some fs =>
    rw [hf] at h
    simp only [Option.some.injEq] at h
    subst h
    intro hn
    rcases List.mem_cons.mp hn with hn | hn
    · exact absurd hn (by decide)
    · rcases List.mem_append.mp hn with hn | hn
      · exact nl_not_mem_joinComma fs (nl_not_mem_marshalFields _ fs hf) hn
      · exact absurd hn (by decide)

theorem nl_not_mem_marshalEntry (e : Entry) (d : List Char)
    (h : marshalEntry e = some d) : '\n' ∉ d := by
  unfold marshalEntry at h
  cases hd : marshalData e.data with
  | none => rw [hd] at h; simp at h
  | some ds =>
    rw [hd] at h
    simp only [Option.some.injEq] at h
    subst h
    intro hn
    simp only [List.append_assoc, List.mem_append] at hn
    rcases hn with hn | hn
    · exact absurd hn (by decide)
    rcases hn with hn | hn
    · exact nl_not_mem_jsonString _ hn
    rcases hn with hn | hn
    · exact absurd hn (by decide)
    rcases hn with hn | hn
    · exact nl_not_mem_jsonString _ hn
    rcases hn with hn | hn
    · exact absurd hn (by decide)
    rcases hn with hn | hn
    · exact nl_not_mem_jsonString _ hn
    rcases hn with hn | hn
    · exact absurd hn (by decide)
    rcases hn with hn | hn
    · exact nl_not_mem_marshalData _ ds hd hn
    · exact absurd hn (by decide)

/-! ### Buffered-writer lemmas -/

theorem bufFlush_ok (w : BufWriter) (h : writerOK w) :
    (bufFlush w).1.out = bufContents w ∧ (bufFlush w).1.buf = [] ∧
    writerOK (bufFlush w).1 ∧ (bufFlush w).1.cap = w.cap := by
  obtain ⟨he, hs⟩ := h
  unfold bufFlush bufContents
  rw [he, hs]
  by_cases hb : w.buf.isEmpty
  · rw [if_neg (by simp), if_pos hb]
    have : w.buf = [] := by simpa [List.isEmpty_iff] using hb
    simp [this, writerOK, he, hs]
  · rw [if_neg (by simp), if_neg hb, if_pos rfl]
    simp [writerOK, he, hs]

theorem bufContents_flush (w : BufWriter) (h : writerOK w) :
    bufContents (bufFlush w).1 = bufContents w := by
  obtain ⟨h1, h2, _, _⟩ := bufFlush_ok w h
  simp [bufContents, h1, h2]

theorem bufWrite_ok (w : BufWriter) (s : List Char) (h : writerOK w) :
    bufContents (bufWrite w s).1 = bufContents w ++ s ∧
    writerOK (bufWrite w s).1 ∧ (bufWrite w s).1.cap = w.cap := by
  obtain ⟨he, hs⟩ := h
  unfold bufWrite
  rw [he, hs]
  by_cases h1 : s.length ≤ bufAvailable w
  · rw [if_neg (by simp), if_pos h1]
    simp [bufContents, writerOK, he, hs]
  · rw [if_neg (by simp), if_neg h1]
    by_cases h2 : w.buf.isEmpty
    · rw [if_pos h2, if_pos rfl]
      have hb : w.buf = [] := by simpa [List.isEmpty_iff] using h2
      simp [bufContents, writerOK, he, hs, hb]
    · rw [if_neg h2, if_pos rfl]
      by_cases h3 : (s.drop (bufAvailable w)).length ≤ w.cap
      · rw [if_pos h3]
        simp [bufContents, writerOK, List.append_assoc, List.take_append_drop]
      · rw [if_neg h3]
        simp [bufContents, writerOK, List.append_assoc, List.take_append_drop]

theorem bufWriteByte_ok (w : BufWriter) (c : Char) (h : writerOK w) :
    bufContents (bufWriteByte w c).1 = bufContents w ++ [c] ∧
    writerOK (bufWriteByte w c).1 ∧ (bufWriteByte w c).1.cap = w.cap := by
  obtain ⟨he, hs⟩ := h
  unfold bufWriteByte
  rw [he, hs]
  by_cases h1 : bufAvailable w = 0
  · rw [if_neg (by simp), if_pos h1, if_pos rfl]
    simp [bufContents, writerOK, he, hs]
  · rw [if_neg (by simp), if_neg h1]
    simp [bufContents, writerOK, he, hs]

/-! ### Per-entry and per-batch lemmas -/

theorem count_nl_record (e : Entry) (d : List Char)
    (h : marshalEntry e = some d) : d.count '\n' = 0 :=
  List.count_eq_zero.mpr (nl_not_mem_marshalEntry e d h)

/-- `processEntry` never touches the closed flag, the queue or the pending
counter, and it pools exactly the entries that serialize within the size
limit, reset to the zero entry. -/
theorem processEntry_fields (st : LoggerState) (e : Entry) :
    (processEntry st e).closed = st.closed ∧
    (processEntry st e).queue = st.queue ∧
    (processEntry st e).pending = st.pending ∧
    (processEntry st e).pool =
      (if entryOK e then newEntry :: st.pool else st.pool) := by
  unfold processEntry
  cases hm : marshalEntry e with
  | none => simp [entryOK, hm]
  | some d =>
    dsimp only
    by_cases hsz : maxEntrySize < d.length
    · rw [if_pos hsz]
      have : entryOK e = false := by
        simp [entryOK, hm, Nat.not_le.mpr hsz]
      simp [this]
    · rw [if_neg hsz]
      have hok : entryOK e = true := by
        simp [entryOK, hm, Nat.le_of_not_lt hsz]
      split_ifs <;> simp [hok, resetEntry_eq]

/-- On a healthy writer, `processEntry` keeps the writer healthy, preserves
its capacity and adds exactly one newline-terminated record to its contents
when the entry is accepted, none otherwise. -/
theorem processEntry_writer (st : LoggerState) (e : Entry)
    (h : writerOK st.writer) :
    writerOK (processEntry st e).writer ∧
    (processEntry st e).writer.cap = st.writer.cap ∧
    nlc (processEntry st e) = nlc st + (if entryOK e then 1 else 0) := by
  unfold processEntry
  cases hm : marshalEntry e with
  | none => simp [entryOK, hm, nlc, h]
  | some d =>
    dsimp only
    by_cases hsz : maxEntrySize < d.length
    · rw [if_pos hsz]
      have hok : entryOK e = false := by
        simp [entryOK, hm, Nat.not_le.mpr hsz]
      exact ⟨h, rfl, by simp [hok, nlc]⟩
    · rw [if_neg hsz]
      have hok : entryOK e = true := by
        simp [entryOK, hm, Nat.le_of_not_lt hsz]
      have hrec := count_nl_record e d hm
      by_cases hav : bufAvailable st.writer < d.length + 1
      · rw [if_pos hav]
        have hf := bufFlush_ok st.writer h
        have hfc := bufContents_flush st.writer h
        have h1 := bufWrite_ok (bufFlush st.writer).1 d hf.2.2.1
        have h2 := bufWriteByte_ok (bufWrite (bufFlush st.writer).1 d).1 '\n'
          h1.2.1
        dsimp only [nlc]
        refine ⟨h2.2.1, by rw [h2.2.2, h1.2.2, hf.2.2.2], ?_⟩
        rw [h2.1, h1.1, hfc]
        simp [hok, List.count_append, hrec]
      · rw [if_neg hav]
        have h1 := bufWrite_ok st.writer d h
        have h2 := bufWriteByte_ok (bufWrite st.writer d).1 '\n' h1.2.1
        dsimp only [nlc]
        refine ⟨h2.2.1, by rw [h2.2.2, h1.2.2], ?_⟩
        rw [h2.1, h1.1]
        simp [hok, List.count_append, hrec]

/-- Folding `processEntry` over a batch: bookkeeping fields. -/
theorem foldl_processEntry_fields (batch : List Entry) :
    ∀ st : LoggerState,
      (batch.foldl processEntry st).closed = st.closed ∧
      (batch.foldl processEntry st).queue = st.queue ∧
      (batch.foldl processEntry st).pending = st.pending ∧
      (batch.foldl processEntry st).pool =
        List.replicate (batch.countP (fun e => entryOK e)) newEntry ++ st.pool := by
  induction batch with
  | nil => intro st; simp
  | cons e rest ih =>
    intro st
    simp only [List.foldl_cons]
    obtain ⟨i1, i2, i3, i4⟩ := ih (processEntry st e)
    obtain ⟨p1, p2, p3, p4⟩ := processEntry_fields st e
    refine ⟨by rw [i1, p1], by rw [i2, p2], by rw [i3, p3], ?_⟩
    rw [i4, p4, List.countP_cons]
    by_cases hok : entryOK e
    · simp [hok, List.replicate_add]
    · simp [hok]

/-- Folding `processEntry` over a batch: writer health and newline count. -/
theorem foldl_processEntry_writer (batch : List Entry) :
    ∀ st : LoggerState, writerOK st.writer →
      writerOK (batch.foldl processEntry st).writer ∧
      (batch.foldl processEntry st).writer.cap = st.writer.cap ∧
      nlc (batch.foldl processEntry st) =
        nlc st + batch.countP (fun e => entryOK e) := by
  induction batch with
  | nil => intro st h; simp [h]
  | cons e rest ih =>
    intro st h
    simp only [List.foldl_cons]
    obtain ⟨p1, p2, p3⟩ := processEntry_writer st e h
    obtain ⟨i1, i2, i3⟩ := ih (processEntry st e) p1
    refine ⟨i1, by rw [i2, p2], ?_⟩
    rw [i3, p3, List.countP_cons]
    by_cases hok : entryOK e <;> simp [hok] <;> omega

/-- `writeBatch`: bookkeeping fields.  The pending counter drops by the
batch length, and exactly the accepted entries are pooled, reset. -/
theorem writeBatchStep_fields (st : LoggerState) (batch : List Entry) :
    (writeBatchStep st batch).closed = st.closed ∧
    (writeBatchStep st batch).queue = st.queue ∧
    (writeBatchStep st batch).pending = st.pending - (batch.length : Int) ∧
    (writeBatchStep st batch).pool =
      List.replicate (batch.countP (fun e => entryOK e)) newEntry ++ st.pool := by
  unfold writeBatchStep
  by_cases hb : batch.isEmpty
  · have hnil : batch = [] := List.isEmpty_iff.mp hb
    subst hnil; simp
  · rw [if_neg hb]
    obtain ⟨f1, f2, f3, f4⟩ := foldl_processEntry_fields batch st
    exact ⟨f1, f2, by dsimp only; rw [f3], f4⟩

/-- `writeBatch`: writer health and newline count on a healthy writer. -/
theorem writeBatchStep_writer (st : LoggerState) (batch : List Entry)
    (h : writerOK st.writer) :
    writerOK (writeBatchStep st batch).writer ∧
    (writeBatchStep st batch).writer.cap = st.writer.cap ∧
    nlc (writeBatchStep st batch) =
      nlc st + batch.countP (fun e => entryOK e) := by
  unfold writeBatchStep
  by_cases hb : batch.isEmpty
  · have hnil : batch = [] := List.isEmpty_iff.mp hb
    subst hnil; simp [h]
  · rw [if_neg hb]
    obtain ⟨w1, w2, w3⟩ := foldl_processEntry_writer batch st h
    have hf := bufFlush_ok _ w1
    have hfc := bufContents_flush _ w1
    dsimp only [nlc] at w3 ⊢
    exact ⟨hf.2.2.1, by rw [hf.2.2.2, w2], by rw [hfc]; exact w3⟩

/-- Folding `writeBatch` over any sequence of batches. -/
theorem foldl_writeBatch (batches : List (List Entry)) :
    ∀ st : LoggerState, writerOK st.writer →
      (batches.foldl writeBatchStep st).closed = st.closed ∧
      (batches.foldl writeBatchStep st).queue = st.queue ∧
      (batches.foldl writeBatchStep st).pending =
        st.pending - (batches.flatten.length : Int) ∧
      writerOK (batches.foldl writeBatchStep st).writer ∧
      nlc (batches.foldl writeBatchStep st) =
        nlc st + batches.flatten.countP (fun e => entryOK e) := by
  induction batches with
  | nil => intro st h; exact ⟨rfl, rfl, by simp, h, by simp⟩
  | cons b rest ih =>
    intro st h
    simp only [List.foldl_cons, List.flatten_cons]
    obtain ⟨f1, f2, f3, f4⟩ := writeBatchStep_fields st b
    obtain ⟨g1, g2, g3⟩ := writeBatchStep_writer st b h
    obtain ⟨i1, i2, i3, i4, i5⟩ := ih (writeBatchStep st b) g1
    refine ⟨by rw [i1, f1], by rw [i2, f2], ?_, i4, ?_⟩
    · rw [i3, f3]
      simp only [List.length_append]
      push_cast
      ring
    · rw [i5, g3, List.countP_append]
      omega

/-- A `log` call on an open logger appends the populated entry to the queue
and increments the pending counter; nothing else changes but the pool. -/
theorem doLog_open (st : LoggerState) (h : st.closed = false) (c : CallArgs) :
    doLog st c = { st with pool := (poolGet st.pool).2,
                           queue := st.queue ++ [entryOfCall c],
                           pending := st.pending + 1 } := by
  unfold doLog loggerLog
  rw [h]
  simp [populateEntry_eq, entryOfCall]

/-- Running a sequence of `log` calls against an open logger. -/
theorem foldl_doLog (calls : List CallArgs) :
    ∀ st : LoggerState, st.closed = false →
      (calls.foldl doLog st).closed = false ∧
      (calls.foldl doLog st).queue = st.queue ++ calls.map entryOfCall ∧
      (calls.foldl doLog st).pending = st.pending + (calls.length : Int) ∧
      (calls.foldl doLog st).writer = st.writer := by
  induction calls with
  | nil => intro st h; simp [h]
  | cons c rest ih =>
    intro st h
    simp only [List.foldl_cons]
    rw [doLog_open st h c]
    obtain ⟨i1, i2, i3, i4⟩ :=
      ih { st with pool := (poolGet st.pool).2,
                   queue := st.queue ++ [entryOfCall c],
                   pending := st.pending + 1 } h
    refine ⟨i1, ?_, ?_, i4⟩
    · rw [i2]; simp
    · rw [i3]; simp only [List.length_cons]; push_cast; omega

/-! ### Claim theorems -/

theorem collectKVs_spec_aux :
    ∀ (n : Nat) (kvs : List GoVal) (m : List (List Char × GoVal)),
      kvs.length ≤ n →
      collectKVs kvs m =
        (specPairs kvs).foldl (fun acc p => mapInsert acc p.1 p.2) m := by
  intro n
  induction n with
  | zero =>
    intro kvs m h
    have : kvs = [] := List.eq_nil_of_length_eq_zero (Nat.le_zero.mp h)
    subst this
    simp [collectKVs, specPairs]
  | succ n ih =>
    intro kvs m h
    rcases kvs with _ | ⟨k, rest1⟩
    · simp [collectKVs, specPairs]
    rcases rest1 with _ | ⟨v, rest⟩
    · simp [collectKVs, specPairs]
    have hr : rest.length ≤ n := by
      simp only [List.length_cons] at h; omega
    cases k with
    | str s =>
      simp only [collectKVs, specPairs, List.singleton_append, List.foldl_cons]
      exact ih rest _ hr
    | int n2 =>
      simp only [collectKVs, specPairs, List.nil_append]
      exact ih rest _ hr
    | null =>
      simp only [collectKVs, specPairs, List.nil_append]
      exact ih rest _ hr
    | chanv =>
      simp only [collectKVs, specPairs, List.nil_append]
      exact ih rest _ hr

/-- C6: the key/value walk of `log` steps through `keyvals` two elements at
a time; a pair is recorded into the entry's mapping exactly when it is
complete and its first element is a string (`specPairs` selects exactly
those pairs), and skipped items — the mismatched trailing element or a pair
with a non-string key — contribute nothing while later pairs are still
processed. -/
theorem c6_keyvals_walk (kvs : List GoVal) (m : List (List Char × GoVal)) :
    collectKVs kvs m =
      (specPairs kvs).foldl (fun acc p => mapInsert acc p.1 p.2) m :=
  collectKVs_spec_aux kvs.length kvs m (Nat.le_refl _)

/-- C9 (implicit): the record built by a `log(level, msg, keyvals)` call is
independent of the residual field state of the entry acquired from the pool
— `log` resets the acquired entry before populating it, so the resulting
time, level, message and mapping are exactly the ones determined by the
call's arguments. -/
theorem c9_populate_independent (now : Nat) (lvl msg : List Char)
    (kvs : List GoVal) (e1 e2 : Entry) :
    populateEntry now lvl msg kvs e1 = populateEntry now lvl msg kvs e2 ∧
    populateEntry now lvl msg kvs e1 =
      { time := now, level := lvl, message := msg,
        data := collectKVs kvs [] } :=
  ⟨(populateEntry_eq now lvl msg kvs e1).trans
      (populateEntry_eq now lvl msg kvs e2).symm,
   populateEntry_eq now lvl msg kvs e1⟩

/-- C4: the first `Close()` (closed flag not yet set) sets the closed flag,
proceeds once the pending counter is zero (`wg.Wait`), performs the final
flush of the output buffer and returns exactly that flush's error; any call
finding the flag already set is a no-op returning nil — only the first
invocation takes effect.  In this embedding `log` and the batch writer
return no error value at all, so the close path is the only operation that
surfaces an error synchronously. -/
theorem c4_close_first_invocation (st : LoggerState) (h : st.closed = false)
    (hp : st.pending = 0) :
    (loggerClose st).1.closed = true ∧
    (loggerClose st).1.writer = (bufFlush st.writer).1 ∧
    (loggerClose st).2 = (bufFlush st.writer).2 ∧
    (loggerClose st).1.pending = 0 ∧
    (∀ st2 : LoggerState, st2.closed = true → loggerClose st2 = (st2, false)) := by
  refine ⟨?_, ?_, ?_, ?_, ?_⟩
  · simp [loggerClose, h]
  · simp [loggerClose, h]
  · simp [loggerClose, h]
  · simp [loggerClose, h, hp]
  · intro st2 h2
    simp [loggerClose, h2]

/-- Witness for C4: an open, drained logger with buffered data over a
failing sink; its first close sets the flag and surfaces the flush error,
while a close on an already-closed logger is a nil no-op. -/
theorem c4_close_first_invocation_witness :
    stalledLogger.closed = false ∧ stalledLogger.pending = 0 ∧
    (loggerClose stalledLogger).1.closed = true ∧
    (loggerClose stalledLogger).2 = (bufFlush stalledLogger.writer).2 ∧
    (bufFlush stalledLogger.writer).2 = true := by
  have h := c4_close_first_invocation stalledLogger rfl rfl
  exact ⟨rfl, rfl, h.1, h.2.2.1, by decide⟩

/-- C10 (implicit): every `Close()` after the first returns nil
immediately — the compare-and-swap fails, so the state is untouched: no
wait, no flush, and no error even if the first invocation's flush failed or
the buffer has since changed. -/
theorem c10_second_close_nil (st : LoggerState) (h : st.closed = true) :
    loggerClose st = (st, false) := by
  unfold loggerClose
  rw [if_pos h]

/-- Witness for C10: a closed logger with a sticky flush error and a
non-empty buffer; close still returns nil and changes nothing. -/
theorem c10_second_close_nil_witness :
    dirtyClosedLogger.closed = true ∧ dirtyClosedLogger.writer.err = true ∧
    dirtyClosedLogger.writer.buf ≠ [] ∧
    loggerClose dirtyClosedLogger = (dirtyClosedLogger, false) :=
  ⟨rfl, rfl, by decide, c10_second_close_nil dirtyClosedLogger rfl⟩

/-- C5: once the closed flag is set it stays set across every operation
(`log`, the batch writer, `Close`), and a `log` call on a closed logger
never enqueues, never increments the pending counter, produces no output
(the writer is untouched) and releases the entry immediately back to the
pool.  The call is a total function of the state — it cannot block. -/
theorem c5_closed_permanent (st : LoggerState) (h : st.closed = true)
    (now : Nat) (lvl msg : List Char) (kvs : List GoVal)
    (batch : List Entry) :
    (loggerLog st now lvl msg kvs).closed = true ∧
    (writeBatchStep st batch).closed = true ∧
    (loggerClose st).1.closed = true ∧
    (loggerLog st now lvl msg kvs).queue = st.queue ∧
    (loggerLog st now lvl msg kvs).pending = st.pending ∧
    (loggerLog st now lvl msg kvs).writer = st.writer ∧
    (loggerLog st now lvl msg kvs).pool =
      { time := now, level := lvl, message := msg, data := collectKVs kvs [] }
        :: (poolGet st.pool).2 := by
  have hlog : loggerLog st now lvl msg kvs =
      { st with pool :=
          { time := now, level := lvl, message := msg,
            data := collectKVs kvs [] } :: (poolGet st.pool).2 } := by
    unfold loggerLog
    simp only [populateEntry_eq, h]
    simp
  refine ⟨by rw [hlog]; exact h, ?_, ?_, by rw [hlog], by rw [hlog],
          by rw [hlog], by rw [hlog]⟩
  · exact (writeBatchStep_fields st batch).1.trans h
  · simp [loggerClose, h]

/-- Witness for C5 at a concrete closed logger and a concrete call. -/
theorem c5_closed_permanent_witness :
    closedLogger.closed = true ∧
    (loggerLog closedLogger 7 (("warn").toList) (("w").toList)
        [GoVal.str (("k").toList), GoVal.int 3]).queue = closedLogger.queue ∧
    (loggerLog closedLogger 7 (("warn").toList) (("w").toList)
        [GoVal.str (("k").toList), GoVal.int 3]).pending =
      closedLogger.pending ∧
    (loggerLog closedLogger 7 (("warn").toList) (("w").toList)
        [GoVal.str (("k").toList), GoVal.int 3]).writer =
      closedLogger.writer := by
  have h := c5_closed_permanent closedLogger rfl 7 (("warn").toList)
    (("w").toList) [GoVal.str (("k").toList), GoVal.int 3] []
  exact ⟨rfl, h.2.2.2.1, h.2.2.2.2.1, h.2.2.2.2.2.1⟩

/-- Counterexample for C2: a batch whose single entry fails serialization.
The entry's pending slot is decremented (via the batch-sized decrement) but
the entry is NOT released back to the pool — the `continue` in `writeBatch`
skips the `entryPool.Put`, so the pool stays empty. -/
theorem c2_counterexample :
    marshalEntry badEntry = none ∧
    (writeBatchStep (newLogger true) [badEntry]).pool = [] ∧
    (writeBatchStep (newLogger true) [badEntry]).pending =
      (newLogger true).pending - 1 := by
  refine ⟨by decide, by decide, by decide⟩

/-- C2 (amended): for every entry of a processed batch the pending counter
is decremented by exactly one (one batch-sized decrement); but only the
entries that serialize successfully and are within the 1 MB maximum are
released back to the Entry Pool (reset), while entries skipped because
serialization failed or the record was oversized are dropped without being
pooled. -/
theorem c2_amended (st : LoggerState) (batch : List Entry) :
    (writeBatchStep st batch).pending = st.pending - (batch.length : Int) ∧
    (writeBatchStep st batch).pool =
      List.replicate (batch.countP (fun e => entryOK e)) newEntry ++ st.pool :=
  ⟨(writeBatchStep_fields st batch).2.2.1,
   (writeBatchStep_fields st batch).2.2.2⟩

/-- Counterexample for C3: a `log` call on a closed logger releases the
populated entry to the pool WITHOUT resetting it — the pooled entry carries
the message of the dropped call, not empty fields. -/
theorem c3_counterexample :
    (loggerLog closedLogger 5 (("info").toList) (("boom").toList) []).pool =
      [{ time := 5, level := ("info").toList, message := ("boom").toList,
         data := [] }] ∧
    ({ time := 5, level := ("info").toList, message := ("boom").toList,
       data := [] } : Entry) ≠ newEntry := by
  refine ⟨by decide, by decide⟩

/-- C3 (amended): every entry the batch writer releases to the pool is
reset first (it is the zero entry); an entry dropped by `log` because the
logger is closed is released WITHOUT being reset; nevertheless no value
from a prior use is observable at a later acquire, because `log` resets
every acquired entry before populating it. -/
theorem c3_amended (st : LoggerState) (batch : List Entry) (now : Nat)
    (lvl msg : List Char) (kvs : List GoVal) (e : Entry) :
    (writeBatchStep st batch).pool =
      List.replicate (batch.countP (fun e2 => entryOK e2)) newEntry
        ++ st.pool ∧
    (st.closed = true →
      (loggerLog st now lvl msg kvs).pool =
        { time := now, level := lvl, message := msg,
          data := collectKVs kvs [] } :: (poolGet st.pool).2) ∧
    populateEntry now lvl msg kvs e =
      { time := now, level := lvl, message := msg,
        data := collectKVs kvs [] } := by
  refine ⟨(writeBatchStep_fields st batch).2.2.2, ?_, populateEntry_eq _ _ _ _ _⟩
  intro hc
  unfold loggerLog
  simp only [populateEntry_eq, hc]
  simp

/-- Witness for C3 (amended) at a closed logger, a failing batch and a
concrete call. -/
theorem c3_amended_witness :
    (writeBatchStep closedLogger [badEntry]).pool =
      List.replicate (List.countP (fun e2 => entryOK e2) [badEntry]) newEntry
        ++ closedLogger.pool ∧
    (loggerLog closedLogger 5 (("info").toList) (("boom").toList) []).pool =
      { time := 5, level := ("info").toList, message := ("boom").toList,
        data := collectKVs [] [] } :: (poolGet closedLogger.pool).2 := by
  have h := c3_amended closedLogger [badEntry] 5 (("info").toList)
    (("boom").toList) [] newEntry
  exact ⟨h.1, h.2.1 rfl⟩

/-- C8: serialization round-trips — the output line produced for an entry
logged with mapping `{"key": "value"}` (written through `writeBatch` to the
sink), parsed back as JSON, yields a data mapping equal to
`{"key": "value"}`. -/
theorem c8_roundtrip :
    parsedData c8Line =
      some (JVal.jobj [(("key").toList, JVal.jstr (("value").toList))]) := by
  rfl

/-- C1: for N producers each issuing exactly one accepted log call on an
open logger — all entries serializing within the size limit — and for every
way the workers can partition and interleave the accepted entries into
batches, after `Close()` returns the sink contains exactly N
newline-terminated records (N newlines, empty buffer), the pending counter
is zero and the logger is closed. -/
theorem c1_n_producers (calls : List CallArgs) (batches : List (List Entry))
    (hok : ∀ c ∈ calls, entryOK (entryOfCall c) = true)
    (hperm : (batches.flatten).Perm (runLogs calls).queue) :
    ((loggerClose (batches.foldl writeBatchStep (runLogs calls))).1.writer.out.count
        '\n' = calls.length) ∧
    (loggerClose (batches.foldl writeBatchStep (runLogs calls))).1.writer.buf
      = [] ∧
    (batches.foldl writeBatchStep (runLogs calls)).pending = 0 ∧
    (loggerClose (batches.foldl writeBatchStep (runLogs calls))).1.closed
      = true := by
  have hrun := foldl_doLog calls (newLogger true) rfl
  have hr1 : (runLogs calls).closed = false := hrun.1
  have hr2 : (runLogs calls).queue = calls.map entryOfCall := by
    have h := hrun.2.1
    simpa [runLogs] using h
  have hr3 : (runLogs calls).pending = (calls.length : Int) := by
    have h := hrun.2.2.1
    simpa [runLogs, newLogger] using h
  have hr4 : (runLogs calls).writer = (newLogger true).writer := hrun.2.2.2
  have hwok : writerOK (runLogs calls).writer := by
    rw [hr4]; exact ⟨rfl, rfl⟩
  have hb := foldl_writeBatch batches (runLogs calls) hwok
  have hallok : ∀ e ∈ batches.flatten, entryOK e = true := by
    intro e he
    have hmem : e ∈ (runLogs calls).queue := hperm.mem_iff.mp he
    rw [hr2] at hmem
    obtain ⟨c, hc, rfl⟩ := List.mem_map.mp hmem
    exact hok c hc
  have hcount : batches.flatten.countP (fun e => entryOK e)
      = batches.flatten.length :=
    List.countP_eq_length.mpr (fun e he => by simpa using hallok e he)
  have hlen : batches.flatten.length = calls.length := by
    have h := hperm.length_eq
    rw [hr2] at h
    simpa using h
  have hnlc0 : nlc (runLogs calls) = 0 := by
    dsimp only [nlc]
    rw [hr4]
    rfl
  have h2closed : (batches.foldl writeBatchStep (runLogs calls)).closed
      = false := hb.1.trans hr1
  have h2pending : (batches.foldl writeBatchStep (runLogs calls)).pending
      = 0 := by
    rw [hb.2.2.1, hr3, hlen]
    ring
  have h2ok : writerOK (batches.foldl writeBatchStep (runLogs calls)).writer :=
    hb.2.2.2.1
  have h2nlc : nlc (batches.foldl writeBatchStep (runLogs calls))
      = calls.length := by
    rw [hb.2.2.2.2, hnlc0, hcount, hlen]
    simp
  have hclw : (loggerClose (batches.foldl writeBatchStep (runLogs calls))).1.writer
      = (bufFlush (batches.foldl writeBatchStep (runLogs calls)).writer).1 := by
    simp [loggerClose, h2closed]
  have hf := bufFlush_ok _ h2ok
  refine ⟨?_, ?_, h2pending, ?_⟩
  · rw [hclw, hf.1]
    exact h2nlc
  · rw [hclw]
    exact hf.2.1
  · simp [loggerClose, h2closed]

/-- Witness for C1: one producer, one accepted call, one batch; the sink
ends with exactly one newline-terminated record. -/
theorem c1_n_producers_witness :
    (∀ c ∈ [c1Call], entryOK (entryOfCall c) = true) ∧
    ((loggerClose ([[entryOfCall c1Call]].foldl writeBatchStep
        (runLogs [c1Call]))).1.writer.out.count '\n' = [c1Call].length) := by
  have hperm : (([[entryOfCall c1Call]] :
      List (List Entry)).flatten).Perm (runLogs [c1Call]).queue := by
    have hq : (runLogs [c1Call]).queue = [entryOfCall c1Call] := by decide
    rw [hq]
    simp
  have hok : ∀ c ∈ [c1Call], entryOK (entryOfCall c) = true := by decide
  exact ⟨hok, (c1_n_producers [c1Call] [[entryOfCall c1Call]] hok hperm).1⟩

theorem esc_replicate_a :
    ∀ n, (List.replicate n 'a').flatMap escChar = List.replicate n 'a' := by
  intro n
  induction n with
  | zero => rfl
  | succ k ih =>
    rw [List.replicate_succ, List.flatMap_cons, ih]
    rfl

theorem recordN_length (n : Nat) :
    (("\x7b\"time\":").toList ++ jsonString (natChars 0)
      ++ (",\"level\":").toList ++ jsonString []
      ++ (",\"message\":").toList ++ jsonString (List.replicate n 'a')
      ++ (",\"data\":").toList ++ ("\x7b\x7d").toList ++ ['\x7d']).length
    = n + 46 := by
  have h : (List.replicate n 'a').flatMap escChar = List.replicate n 'a' :=
    esc_replicate_a n
  have e1 : ("\x7b\"time\":").toList
      = ['\x7b', '"', 't', 'i', 'm', 'e', '"', ':'] := rfl
  have e2 : ((",\"level\":").toList)
      = [',', '"', 'l', 'e', 'v', 'e', 'l', '"', ':'] := rfl
  have e3 : ((",\"message\":").toList)
      = [',', '"', 'm', 'e', 's', 's', 'a', 'g', 'e', '"', ':'] := rfl
  have e4 : ((",\"data\":").toList)
      = [',', '"', 'd', 'a', 't', 'a', '"', ':'] := rfl
  have e5 : (("\x7b\x7d").toList) = ['\x7b', '\x7d'] := rfl
  have e6 : natChars 0 = ['0'] := rfl
  rw [e1, e2, e3, e4, e5, e6]
  have e7 : escChar '0' = ['0'] := rfl
  simp [jsonString, h, e7]

theorem bigRecord_length : bigRecord.length = 300046 := recordN_length 300000

theorem bufWrite_out_extends (w : BufWriter) (s : List Char) :
    ∃ u, (bufWrite w s).1.out = w.out ++ u := by
  unfold bufWrite
  by_cases h1 : w.err = true
  · rw [if_pos h1]; exact ⟨[], by rw [List.append_nil]⟩
  rw [if_neg h1]
  by_cases h2 : s.length ≤ bufAvailable w
  · rw [if_pos h2]; exact ⟨[], by rw [List.append_nil]⟩
  rw [if_neg h2]
  by_cases h3 : w.buf.isEmpty
  · rw [if_pos h3]
    by_cases h4 : w.sinkOK = true
    · rw [if_pos h4]; exact ⟨s, rfl⟩
    · rw [if_neg h4]; exact ⟨[], by rw [List.append_nil]⟩
  rw [if_neg h3]
  dsimp only
  by_cases h4 : w.sinkOK = true
  · rw [if_pos h4]
    by_cases h5 : (s.drop (bufAvailable w)).length ≤ w.cap
    · rw [if_pos h5]
      exact ⟨w.buf ++ s.take (bufAvailable w), by rw [List.append_assoc]⟩
    · rw [if_neg h5]
      exact ⟨w.buf ++ s.take (bufAvailable w) ++ s.drop (bufAvailable w),
        by simp [List.append_assoc]⟩
  · rw [if_neg h4]; exact ⟨[], by rw [List.append_nil]⟩

theorem bufWriteByte_out_extends (w : BufWriter) (c : Char) :
    ∃ u, (bufWriteByte w c).1.out = w.out ++ u := by
  unfold bufWriteByte
  by_cases h1 : w.err = true
  · rw [if_pos h1]; exact ⟨[], by rw [List.append_nil]⟩
  rw [if_neg h1]
  by_cases h2 : bufAvailable w = 0
  · rw [if_pos h2]
    by_cases h3 : w.sinkOK = true
    · rw [if_pos h3]; exact ⟨w.buf, rfl⟩
    · rw [if_neg h3]; exact ⟨[], by rw [List.append_nil]⟩
  · rw [if_neg h2]; exact ⟨[], by rw [List.append_nil]⟩

/-- When an accepted record is larger than the remaining buffer space, the
buffer (here: empty) is flushed and the record bypasses the buffer: it goes
directly to the sink, and only the terminator lands in the buffer. -/
theorem processEntry_direct (st : LoggerState) (e : Entry) (d : List Char)
    (hm : marshalEntry e = some d) (hsz : ¬ (maxEntrySize < d.length))
    (hbuf : st.writer.buf = []) (herr : st.writer.err = false)
    (hsink : st.writer.sinkOK = true)
    (hav : bufAvailable st.writer < d.length + 1)
    (hcap : ¬ (d.length ≤ bufAvailable st.writer))
    (hne : ¬ (bufAvailable st.writer = 0)) :
    (processEntry st e).writer.buf = ['\n'] ∧
    (processEntry st e).writer.out = st.writer.out ++ d := by
  have hfl : bufFlush st.writer = (st.writer, false) := by
    unfold bufFlush
    rw [herr]
    simp [hbuf]
  have hwr : bufWrite st.writer d
      = ({ st.writer with out := st.writer.out ++ d }, false) := by
    unfold bufWrite
    rw [herr, hsink]
    simp [hbuf, hcap, hsink, herr]
  have hwb : bufWriteByte { st.writer with out := st.writer.out ++ d } '\n'
      = (({ st.writer with
            out := st.writer.out ++ d
            buf := st.writer.buf ++ ['\n'] } : BufWriter), false) := by
    unfold bufWriteByte
    dsimp only
    rw [herr, if_neg (by decide)]
    rw [if_neg (by simpa [bufAvailable] using hne)]
  unfold processEntry
  rw [hm]
  dsimp only
  rw [if_neg hsz, if_pos hav, hfl]
  dsimp only
  rw [hwr]
  dsimp only
  rw [hwb]
  exact ⟨by rw [hbuf]; rfl, rfl⟩

/-- Counterexample for C7: an accepted entry (serialization succeeds, the
record is under the 1 MB maximum) whose record exceeds the 256 KB buffer
capacity.  The buffer lacks room, so the pre-flush runs, but then the record
is NOT written into the buffer: the buffered writer sends it directly to the
sink, and only the line terminator ends up in the buffer. -/
theorem c7_counterexample :
    marshalEntry bigEntry = some bigRecord ∧
    bigRecord.length ≤ maxEntrySize ∧
    bufAvailable (newLogger true).writer < bigRecord.length + 1 ∧
    (processEntry (newLogger true) bigEntry).writer.buf = ['\n'] ∧
    (processEntry (newLogger true) bigEntry).writer.out = bigRecord := by
  have hm : marshalEntry bigEntry = some bigRecord := rfl
  have hl : bigRecord.length = 300046 := bigRecord_length
  have hav : bufAvailable (newLogger true).writer < bigRecord.length + 1 := by
    rw [hl]; decide
  have hpe := processEntry_direct (newLogger true) bigEntry bigRecord hm
    (by rw [hl]; decide) rfl rfl rfl hav (by rw [hl]; decide) (by decide)
  refine ⟨hm, by rw [hl]; decide, hav, hpe.1, ?_⟩
  rw [hpe.2]
  rfl

/-- C7 (amended): for each entry of a batch, in accumulation order: a
serialization failure or a record over the 1 MB maximum leaves the writer
untouched (not written, not retried, not pooled); otherwise, when the buffer
lacks room for the record plus a line terminator it is first flushed to the
sink, and the record followed by the terminator is then written through the
buffered writer — into the buffer whenever it fits (in particular whenever
room was available), while a record larger than the buffer capacity is
passed directly to the sink; in every accepted case the writer's overall
content grows by exactly the record plus terminator. -/
theorem c7_per_entry_write (st : LoggerState) (e : Entry)
    (h : writerOK st.writer) :
    (marshalEntry e = none →
       (processEntry st e).writer = st.writer ∧
       (processEntry st e).pool = st.pool) ∧
    (∀ d, marshalEntry e = some d → maxEntrySize < d.length →
       (processEntry st e).writer = st.writer ∧
       (processEntry st e).pool = st.pool) ∧
    (∀ d, marshalEntry e = some d → d.length ≤ maxEntrySize →
       bufContents (processEntry st e).writer =
         bufContents st.writer ++ d ++ ['\n'] ∧
       (d.length + 1 ≤ bufAvailable st.writer →
          (processEntry st e).writer =
            { st.writer with buf := st.writer.buf ++ d ++ ['\n'] }) ∧
       (bufAvailable st.writer < d.length + 1 →
          ∃ t, (processEntry st e).writer.out =
            st.writer.out ++ st.writer.buf ++ t)) := by
  refine ⟨?_, ?_, ?_⟩
  · intro hm
    unfold processEntry
    rw [hm]
    exact ⟨rfl, rfl⟩
  · intro d hm hsz
    unfold processEntry
    rw [hm]
    dsimp only
    rw [if_pos hsz]
    exact ⟨rfl, rfl⟩
  · intro d hm hsz
    have hsz' : ¬ (maxEntrySize < d.length) := Nat.not_lt.mpr hsz
    refine ⟨?_, ?_, ?_⟩
    · unfold processEntry
      rw [hm]
      dsimp only
      rw [if_neg hsz']
      by_cases hav : bufAvailable st.writer < d.length + 1
      · rw [if_pos hav]
        have hf := bufFlush_ok st.writer h
        have hfc := bufContents_flush st.writer h
        have h1 := bufWrite_ok (bufFlush st.writer).1 d hf.2.2.1
        have h2 := bufWriteByte_ok (bufWrite (bufFlush st.writer).1 d).1 '\n'
          h1.2.1
        dsimp only
        rw [h2.1, h1.1, hfc]
      · rw [if_neg hav]
        have h1 := bufWrite_ok st.writer d h
        have h2 := bufWriteByte_ok (bufWrite st.writer d).1 '\n' h1.2.1
        dsimp only
        rw [h2.1, h1.1]
    · intro hroom
      have hav : ¬ (bufAvailable st.writer < d.length + 1) :=
        Nat.not_lt.mpr hroom
      unfold processEntry
      rw [hm]
      dsimp only
      rw [if_neg hsz', if_neg hav]
      have hfits : d.length ≤ bufAvailable st.writer := by omega
      have hwr : bufWrite st.writer d
          = ({ st.writer with buf := st.writer.buf ++ d }, false) := by
        unfold bufWrite
        rw [if_neg (by simp [h.1]), if_pos hfits]
      have havb : ¬ (bufAvailable { st.writer with
          buf := st.writer.buf ++ d } = 0) := by
        simp only [bufAvailable, List.length_append] at hroom ⊢
        omega
      have hwb : bufWriteByte { st.writer with
            buf := st.writer.buf ++ d } '\n'
          = ({ st.writer with buf := st.writer.buf ++ d ++ ['\n'] }, false) := by
        unfold bufWriteByte
        rw [if_neg (by simp [h.1]), if_neg havb]
      rw [hwr]
      dsimp only
      rw [hwb]
    · intro hav
      unfold processEntry
      rw [hm]
      dsimp only
      rw [if_neg hsz', if_pos hav]
      have hf := bufFlush_ok st.writer h
      obtain ⟨u1, hu1⟩ := bufWrite_out_extends (bufFlush st.writer).1 d
      obtain ⟨u2, hu2⟩ :=
        bufWriteByte_out_extends (bufWrite (bufFlush st.writer).1 d).1 '\n'
      refine ⟨u1 ++ u2, ?_⟩
      dsimp only
      rw [hu2, hu1, hf.1]
      simp [bufContents, List.append_assoc]

/-- Witness for C7 (amended): the small entry of the round-trip scenario on
a fresh logger — its record plus terminator extends the writer's content. -/
theorem c7_per_entry_write_witness :
    bufContents (processEntry (newLogger true) c8Entry).writer =
      bufContents (newLogger true).writer
        ++ (marshalEntry c8Entry).getD [] ++ ['\n'] :=
  ((c7_per_entry_write (newLogger true) c8Entry ⟨rfl, rfl⟩).2.2
    ((marshalEntry c8Entry).getD []) rfl (by decide)).1

end Jobocron
